import Mathlib

/-
Verification of the southwinds-io/source_client Go module against its
natural-language specification.  The client code (src/types.go and the
files under src/unnamed/) is shallowly embedded: strings and byte
payloads become `List Char`, Go errors become `GoErr` values carrying
their message, HTTP requests become the pure `Request` record that the
code would hand to the transport, and each client operation becomes a
pure function that either returns the built request or the error the Go
function returns before any request is dispatched.
-/

namespace SrcClient

/-- Go `error` values as produced by `fmt.Errorf`: a message string. -/
structure GoErr where
  msg : List Char
deriving DecidableEq, Repr

/-- The HTTP request a client operation builds and hands to the executor:
method, full URL (host ++ route), body bytes, and the optional
`Source-Type` header.  Mirrors the `retryablehttp.NewRequest` calls plus
the header writes in src/unnamed/part_001. -/
structure Request where
  method : List Char
  url : List Char
  body : List Char
  sourceType : Option (List Char)
deriving DecidableEq, Repr

/-- An HTTP response as the client code observes it: numeric status code,
status text (`resp.Status`), and the outcome of `io.ReadAll(resp.Body)`. -/
structure Response where
  statusCode : Nat
  status : List Char
  bodyRead : Except GoErr (List Char)

/-- The item record `I` of src/types.go: key, type tag, opaque value
bytes, and the last-update timestamp (kept opaque as a `Nat`). -/
structure I where
  key : List Char
  type : List Char
  value : List Char
  updated : Nat

/-- Embedding of `func (i *I) Typed(item any) (result any, err error)` from
src/types.go lines 24-28.  `um` models `json.Unmarshal` specialised to the
prototype's type: it returns the (possibly partially) populated prototype
together with the optional decode error.  The Go function returns the same
pointer `item` it was given as `result` in every case; the embedding
records result non-nilness with `some`. -/
def ITyped {α ε : Type} (um : List Char → α → α × Option ε) (i : I) (item : α) :
    Option α × Option ε :=
  let r := um i.value item
  (some r.1, r.2)

/-- Embedding of `func convert(i I, factory func() any) (any, error)` from
src/types.go lines 46-50: build a fresh instance with the factory and
unmarshal the item's value into it. -/
def convert {α ε : Type} (um : List Char → α → α × Option ε) (i : I)
    (factory : Unit → α) : α × Option ε :=
  um i.value (factory ())

/-- The loop body of `func (items IL) Typed(factory func() any) ([]any, error)`
from src/types.go lines 34-44, with the accumulator `ii` explicit: convert
each item in order; on the first conversion error return `(nil, err)`
(embedded as `([], some err)`), otherwise append and continue. -/
def typedLoop {α ε : Type} (um : List Char → α → α × Option ε)
    (factory : Unit → α) : List I → List α → List α × Option ε
  | [], ii => (ii, none)
  | item :: rest, ii =>
    match convert um item factory with
    | (t, none) => typedLoop um factory rest (ii ++ [t])
    | (_, some e) => ([], some e)

/-- Embedding of `IL.Typed` (src/types.go lines 34-44): run the conversion
loop starting from the empty accumulator. -/
def ILTyped {α ε : Type} (um : List Char → α → α × Option ε) (items : List I)
    (factory : Unit → α) : List α × Option ε :=
  typedLoop um factory items []

/-- Embedding of `strings.Contains(key, "?")` for the single-character
needle `?`. -/
def containsQ : List Char → Bool
  | [] => false
  | c :: cs => c = '?' || containsQ cs

/-- Embedding of `strings.Replace(key, "?", now, 1)`: replace the first
occurrence of `?` with `ts`, leaving everything else unchanged. -/
def replaceQOnce : List Char → List Char → List Char
  | [], _ => []
  | c :: cs, ts => if c = '?' then ts ++ cs else c :: replaceQOnce cs ts

/-- The key-resolution step of `Client.Save` (src/unnamed/part_001 lines
124-129 and src/unnamed/part_000 lines 105-110): if the key contains the
wildcard `?`, replace its first occurrence with the formatted timestamp. -/
def resolveKey (key ts : List Char) : List Char :=
  if containsQ key then replaceQOnce key ts else key

/-- A broken-down UTC wall-clock instant, the input of the Go
`time.Time.Format` call in `Save`. -/
structure GoTime where
  year : Nat
  month : Nat
  day : Nat
  hour : Nat
  minute : Nat
  second : Nat
  millis : Nat
deriving DecidableEq, Repr

/-- Decimal digit character for a digit value below ten. -/
def digitChar (d : Nat) : Char := Char.ofNat (48 + d)

/-- Decimal character representation of a natural number (no sign). -/
def natChars (n : Nat) : List Char :=
  if n = 0 then ['0'] else ((Nat.digits 10 n).reverse.map digitChar)

/-- Zero-pad a decimal representation on the left to the given width, as
Go's timestamp layout fields do. -/
def padNum (w n : Nat) : List Char :=
  List.replicate (w - (natChars n).length) '0' ++ natChars n

/-- Embedding of `time.Now().UTC().Format("20060102150405.000")` applied to
a broken-down instant: four-digit year, two-digit month, day, hour, minute
and second, then a dot and three millisecond digits. -/
def formatMilli (t : GoTime) : List Char :=
  padNum 4 t.year ++ padNum 2 t.month ++ padNum 2 t.day ++ padNum 2 t.hour ++
    padNum 2 t.minute ++ padNum 2 t.second ++ '.' :: padNum 3 t.millis

/-- Embedding of `Client.Save` (src/unnamed/part_001 lines 114-156) up to
the point where the request is handed to the executor.  `validateRes` is
the outcome of `item.Validate()`, `isPtr` the outcome of
`reflect.ValueOf(item).Kind() == reflect.Ptr`, `marshalRes` the outcome of
`json.Marshal(item)`, and `now` the current UTC instant.  An `Except.error`
is returned by the Go function before any request is built or dispatched. -/
def saveBuild (host key itemType : List Char) (validateRes : Option GoErr)
    (isPtr : Bool) (marshalRes : Except GoErr (List Char)) (now : GoTime) :
    Except GoErr Request :=
  match validateRes with
  | some e => Except.error e
  | none =>
    if isPtr then
      Except.error ⟨"item argument passed to Save() must not be a pointer".toList⟩
    else if itemType.length = 0 then
      Except.error ⟨"item type is required to validate the item data".toList⟩
    else
      let key2 := resolveKey key (formatMilli now)
      match marshalRes with
      | Except.error e => Except.error e
      | Except.ok objBytes =>
        Except.ok { method := "PUT".toList
                    url := host ++ "/item/".toList ++ key2
                    body := objBytes
                    sourceType := if itemType.length > 0 then some itemType else none }

/-- Embedding of `Client.Tag` (src/unnamed/part_001 lines 420-445) up to
the request hand-off: an empty tag name is a usage error returned before
any request is built; otherwise the tag route segment is the name, or
`name|value` when a value is supplied. -/
def tagBuild (host itemKey tagName tagValue : List Char) : Except GoErr Request :=
  if tagName.length > 0 then
    let tag := if tagValue.length > 0 then tagName ++ '|' :: tagValue else tagName
    Except.ok { method := "PUT".toList
                url := host ++ "/item/".toList ++ itemKey ++ "/tag/".toList ++ tag
                body := []
                sourceType := none }
  else Except.error ⟨"a tag name is required".toList⟩

/-- Embedding of `Client.Untag` (src/unnamed/part_001 lines 447-465) up to
the request hand-off: an empty tag name is a usage error returned before
any request is built. -/
def untagBuild (host itemKey tagName : List Char) : Except GoErr Request :=
  if tagName.length = 0 then Except.error ⟨"a tag name is required".toList⟩
  else
    Except.ok { method := "DELETE".toList
                url := host ++ "/item/".toList ++ itemKey ++ "/tag/".toList ++ tagName
                body := []
                sourceType := none }

/-- The request built by `Client.PopOldestRaw` (src/unnamed/part_001 lines
266-270): `DELETE {host}/item/pop/oldest/{itemType}`. -/
def popOldestRawRequest (host itemType : List Char) : Request :=
  { method := "DELETE".toList
    url := host ++ "/item/pop/oldest/".toList ++ itemType
    body := []
    sourceType := none }

/-- The request built by `Client.PopNewestRaw` (src/unnamed/part_001 lines
309-313): `DELETE {host}/item/pop/newest/{itemType}`. -/
def popNewestRawRequest (host itemType : List Char) : Request :=
  { method := "DELETE".toList
    url := host ++ "/item/pop/newest/".toList ++ itemType
    body := []
    sourceType := none }

/-- Embedding of `Client.PopNewest` (src/unnamed/part_001 lines 338-350) up
to the request it dispatches: after the prototype pointer check it calls
`c.PopOldestRaw(itemType)` (line 342), so the request it sends is the
oldest-route request. -/
def popNewestRequest (host itemType : List Char) (protoIsPtr : Bool) :
    Except GoErr Request :=
  if protoIsPtr then Except.ok (popOldestRawRequest host itemType)
  else Except.error ⟨"prototype argument passed to PopNewest() must be a pointer".toList⟩

/-- Embedding of `Client.PopOldest` (src/unnamed/part_001 lines 295-307) up
to the request it dispatches: after the prototype pointer check it calls
`c.PopOldestRaw(itemType)`. -/
def popOldestRequest (host itemType : List Char) (protoIsPtr : Bool) :
    Except GoErr Request :=
  if protoIsPtr then Except.ok (popOldestRawRequest host itemType)
  else Except.error ⟨"prototype argument passed to PopOldest() must be a pointer".toList⟩

/-- Response handling of `Client.PopOldestRaw` (src/unnamed/part_001 lines
277-292): 404 is the empty-queue case and yields `(nil, nil)`; any other
status above 299 yields an error carrying the response status text; on
success the body is read and unmarshalled into a fresh item.  `um` models
`json.Unmarshal` into `*I`. -/
def popOldestRawHandle (um : List Char → Except GoErr I) (resp : Response) :
    Except GoErr (Option I) :=
  if resp.statusCode = 404 then Except.ok none
  else if 299 < resp.statusCode then
    Except.error ⟨"cannot get item, source server responded with: ".toList ++ resp.status⟩
  else
    match resp.bodyRead with
    | Except.error e => Except.error ⟨"cannot read response body: ".toList ++ e.msg⟩
    | Except.ok body =>
      match um body with
      | Except.error e => Except.error ⟨"cannot unmarshal response body: ".toList ++ e.msg⟩
      | Except.ok item => Except.ok (some item)

/-- Response handling of `Client.PopNewestRaw` (src/unnamed/part_001 lines
320-335), textually identical to the oldest variant: 404 yields
`(nil, nil)`, any other status above 299 yields an error carrying the
response status text. -/
def popNewestRawHandle (um : List Char → Except GoErr I) (resp : Response) :
    Except GoErr (Option I) :=
  if resp.statusCode = 404 then Except.ok none
  else if 299 < resp.statusCode then
    Except.error ⟨"cannot get item, source server responded with: ".toList ++ resp.status⟩
  else
    match resp.bodyRead with
    | Except.error e => Except.error ⟨"cannot read response body: ".toList ++ e.msg⟩
    | Except.ok body =>
      match um body with
      | Except.error e => Except.error ⟨"cannot unmarshal response body: ".toList ++ e.msg⟩
      | Except.ok item => Except.ok (some item)

/-- Consume an exact literal from the front of the input, returning the
remainder, or fail. -/
def dropLit : List Char → List Char → Option (List Char)
  | [], s => some s
  | _ :: _, [] => none
  | c :: cs, d :: ds => if c = d then dropLit cs ds else none

/-- Parse a JSON boolean literal. -/
def parseBoolTok (s : List Char) : Option (Bool × List Char) :=
  match dropLit "true".toList s with
  | some r => some (true, r)
  | none =>
    match dropLit "false".toList s with
    | some r => some (false, r)
    | none => none

/-- Consume a maximal run of decimal digits, accumulating their value. -/
def parseDigitsAux : List Char → Nat → Nat × List Char
  | [], acc => (acc, [])
  | c :: cs, acc =>
    if c.isDigit then parseDigitsAux cs (acc * 10 + (c.toNat - 48)) else (acc, c :: cs)

/-- Parse a nonempty run of decimal digits as a natural number. -/
def parseNatTok (s : List Char) : Option (Nat × List Char) :=
  match s with
  | [] => none
  | c :: _ => if c.isDigit then some (parseDigitsAux s 0) else none

/-- Parse an optionally minus-signed decimal integer. -/
def parseIntTok (s : List Char) : Option (Int × List Char) :=
  match s with
  | [] => none
  | c :: rest =>
    if c = '-' then (parseNatTok rest).map fun p => (-(p.1 : Int), p.2)
    else (parseNatTok (c :: rest)).map fun p => ((p.1 : Int), p.2)

/-- JSON boolean text. -/
def boolChars (b : Bool) : List Char :=
  if b then "true".toList else "false".toList

/-- JSON integer text: decimal digits with a minus sign for negatives. -/
def intChars (i : Int) : List Char :=
  if i < 0 then '-' :: natChars i.natAbs else natChars i.natAbs

/-- One nanosecond-count second of Go's `time.Duration`. -/
def goSecond : Int := 1000000000

/-- The `ClientOptions` struct of src/unnamed/part_001 lines 28-31:
`InsecureSkipVerify bool` and `Timeout time.Duration` (an `int64`
nanosecond count, embedded as `Int`). -/
structure ClientOptions where
  insecureSkipVerify : Bool
  timeout : Int
deriving DecidableEq, Repr

/-- Embedding of `ClientOptions.Validate` (src/unnamed/part_001 lines
33-38): an error when the timeout is below thirty seconds, success
otherwise. -/
def clientOptionsValidate (o : ClientOptions) : Option GoErr :=
  if o.timeout < 30 * goSecond then some ⟨"timeout must be greater than 30 secs".toList⟩
  else none

/-- Modelled from the spec: `json.Marshal` (the Go standard-library codec
invoked by `Client.Save`, not code under src/) specialised to the concrete
struct `ClientOptions`.  With no field tags, Go marshals the struct as
`{"InsecureSkipVerify":<bool>,"Timeout":<int64>}` in field order. -/
def encodeClientOptions (o : ClientOptions) : List Char :=
  "\x7b\"InsecureSkipVerify\":".toList ++ boolChars o.insecureSkipVerify ++
    ",\"Timeout\":".toList ++ intChars o.timeout ++ "\x7d".toList

/-- The decode error `json.Unmarshal` reports on malformed input. -/
def decErr : Option GoErr := some ⟨"invalid character".toList⟩

/-- Final stage of the modelled `json.Unmarshal` for `ClientOptions`:
parse the integer timeout value and the closing brace, populating the
timeout field. -/
def decodeTimeoutValue (rest3 : List Char) (p1 : ClientOptions) :
    ClientOptions × Option GoErr :=
  match parseIntTok rest3 with
  | none => (p1, decErr)
  | some (t, rest4) =>
    let p2 : ClientOptions := { p1 with timeout := t }
    if rest4 = "\x7d".toList then (p2, none) else (p2, decErr)

/-- Second stage of the modelled `json.Unmarshal` for `ClientOptions`:
consume the `Timeout` key and continue with its value. -/
def decodeTimeoutField (rest2 : List Char) (p1 : ClientOptions) :
    ClientOptions × Option GoErr :=
  match dropLit ",\"Timeout\":".toList rest2 with
  | none => (p1, decErr)
  | some rest3 => decodeTimeoutValue rest3 p1

/-- First stage of the modelled `json.Unmarshal` for `ClientOptions`:
parse the boolean value of `InsecureSkipVerify`, populate the field and
continue with the timeout field. -/
def decodeInsecureField (rest1 : List Char) (proto : ClientOptions) :
    ClientOptions × Option GoErr :=
  match parseBoolTok rest1 with
  | none => (proto, decErr)
  | some (b, rest2) => decodeTimeoutField rest2 { proto with insecureSkipVerify := b }

/-- Modelled from the spec: `json.Unmarshal` (the Go standard-library codec
invoked by `I.Typed`, not code under src/) specialised to `ClientOptions`
on the grammar Go's marshaller emits for that struct.  Fields already
parsed stay populated in the prototype when a later step fails, matching
Go's populate-as-you-decode behaviour. -/
def decodeClientOptions (bytes : List Char) (proto : ClientOptions) :
    ClientOptions × Option GoErr :=
  match dropLit "\x7b\"InsecureSkipVerify\":".toList bytes with
  | none => (proto, decErr)
  | some rest1 => decodeInsecureField rest1 proto

/-- The fresh zero-valued `ClientOptions` prototype (`new(ClientOptions)`):
Go zero values of its fields. -/
def zeroClientOptions : ClientOptions :=
  { insecureSkipVerify := false, timeout := 0 }

/-- A sample instant used to instantiate theorems with hypotheses. -/
def sampleTime : GoTime :=
  { year := 2022, month := 1, day := 2, hour := 3, minute := 4, second := 5, millis := 6 }

/-- A sample unmarshal function used to instantiate theorems with
hypotheses. -/
def sampleUm : List Char → Except GoErr I :=
  fun bytes => Except.ok { key := [], type := [], value := bytes, updated := 0 }

/-- A sample 404 response used to instantiate theorems with hypotheses. -/
def resp404 : Response :=
  { statusCode := 404, status := "404 Not Found".toList, bodyRead := Except.ok [] }

/-- A sample 500 response used to instantiate theorems with hypotheses. -/
def resp500 : Response :=
  { statusCode := 500, status := "500 Internal Server Error".toList, bodyRead := Except.ok [] }

/-- The retry maximum `New` installs on the request executor
(src/unnamed/part_001 line 57: `c.RetryMax = 20`). -/
def newRetryMax : Nat := 20

/-- Modelled from the spec: the bounded retry loop of the Resilient Request
Executor (the `hashicorp/go-retryablehttp` dependency configured by `New`,
whose code is not under src/).  Per spec section 4.6, the executor performs
the attempt and, while the outcome is retryable and the retry budget is not
exhausted, retries; it returns the final outcome together with the number
of attempts performed.  `k` counts the retries already used. -/
def retryExec (retryMax : Nat) (attempt : Nat → Except GoErr Response)
    (retryable : Except GoErr Response → Bool) (k : Nat) :
    Except GoErr Response × Nat :=
  let r := attempt k
  if retryable r ∧ k < retryMax then retryExec retryMax attempt retryable (k + 1)
  else (r, k + 1)
termination_by retryMax + 1 - k

theorem containsQ_append_q (pre suf : List Char) :
    containsQ (pre ++ '?' :: suf) = true := by
  induction pre with
  | nil => simp [containsQ]
  | cons c cs ih => simp [containsQ, ih]

theorem containsQ_cons_false {c : Char} {cs : List Char}
    (h : containsQ (c :: cs) = false) : c ≠ '?' ∧ containsQ cs = false := by
  simpa [containsQ] using h

theorem replaceQOnce_first (pre suf ts : List Char) (h : containsQ pre = false) :
    replaceQOnce (pre ++ '?' :: suf) ts = pre ++ ts ++ suf := by
  induction pre with
  | nil => simp [replaceQOnce]
  | cons c cs ih =>
    obtain ⟨hc, hcs⟩ := containsQ_cons_false h
    simp [replaceQOnce, hc, ih hcs]

theorem resolveKey_wildcard (pre suf ts : List Char) (h : containsQ pre = false) :
    resolveKey (pre ++ '?' :: suf) ts = pre ++ ts ++ suf := by
  simp [resolveKey, containsQ_append_q, replaceQOnce_first pre suf ts h]

theorem resolveKey_plain (pat ts : List Char) (h : containsQ pat = false) :
    resolveKey pat ts = pat := by
  simp [resolveKey, h]

/-- C1: a key pattern passed to `Save` that contains `?` has exactly its
first `?` replaced by the UTC timestamp formatted with millisecond
precision, all other characters (including later `?`s, which may occur in
`suf`) unchanged, and that resolved key is the one used in the request
URL; a pattern with no `?` is used unchanged. -/
theorem save_wildcard_key_resolution
    (host ty body pre suf pat : List Char) (now : GoTime)
    (hpre : containsQ pre = false) (hpat : containsQ pat = false)
    (hty : ty ≠ []) :
    resolveKey (pre ++ '?' :: suf) (formatMilli now) = pre ++ formatMilli now ++ suf ∧
    resolveKey pat (formatMilli now) = pat ∧
    saveBuild host (pre ++ '?' :: suf) ty none false (Except.ok body) now =
      Except.ok { method := "PUT".toList
                  url := host ++ "/item/".toList ++ (pre ++ formatMilli now ++ suf)
                  body := body
                  sourceType := some ty } ∧
    saveBuild host pat ty none false (Except.ok body) now =
      Except.ok { method := "PUT".toList
                  url := host ++ "/item/".toList ++ pat
                  body := body
                  sourceType := some ty } := by
  have hlen : ty.length ≠ 0 := by simpa [List.length_eq_zero] using hty
  refine ⟨resolveKey_wildcard pre suf _ hpre, resolveKey_plain pat _ hpat, ?_, ?_⟩ <;>
    simp [saveBuild, hlen, Nat.pos_of_ne_zero hlen,
      resolveKey_wildcard pre suf _ hpre, resolveKey_plain pat _ hpat]

/-- Witness for C1 at concrete inputs: the pattern `ITEM_?` from the
repository's own test and the plain key `OPT_1`. -/
theorem save_wildcard_key_resolution_witness :
    containsQ "ITEM_".toList = false ∧ containsQ "OPT_1".toList = false ∧
    "AAA".toList ≠ ([] : List Char) ∧
    (resolveKey ("ITEM_".toList ++ '?' :: []) (formatMilli sampleTime) =
        "ITEM_".toList ++ formatMilli sampleTime ++ [] ∧
      resolveKey "OPT_1".toList (formatMilli sampleTime) = "OPT_1".toList ∧
      saveBuild [] ("ITEM_".toList ++ '?' :: []) "AAA".toList none false
          (Except.ok []) sampleTime =
        Except.ok { method := "PUT".toList
                    url := [] ++ "/item/".toList ++
                      ("ITEM_".toList ++ formatMilli sampleTime ++ [])
                    body := []
                    sourceType := some "AAA".toList } ∧
      saveBuild [] "OPT_1".toList "AAA".toList none false (Except.ok []) sampleTime =
        Except.ok { method := "PUT".toList
                    url := [] ++ "/item/".toList ++ "OPT_1".toList
                    body := []
                    sourceType := some "AAA".toList }) :=
  ⟨by decide, by decide, by decide,
    save_wildcard_key_resolution [] "AAA".toList [] "ITEM_".toList [] "OPT_1".toList
      sampleTime (by decide) (by decide) (by decide)⟩

/-- C2: in src/unnamed/part_001, `PopNewest` (line 342) obtains its item
from `PopOldestRaw`, so the request it dispatches targets the
`/item/pop/oldest/` route, not `/item/pop/newest/` as the claim requires;
the two routes are distinct. -/
theorem popNewest_oldest_route_bug :
    popNewestRequest [] "AAA".toList true =
      Except.ok (popOldestRawRequest [] "AAA".toList) ∧
    (popOldestRawRequest [] "AAA".toList).url = "/item/pop/oldest/AAA".toList ∧
    (popNewestRawRequest [] "AAA".toList).url = "/item/pop/newest/AAA".toList ∧
    popOldestRawRequest [] "AAA".toList ≠ popNewestRawRequest [] "AAA".toList :=
  ⟨rfl, by decide, by decide, by decide⟩

/-- C4: when the item's `Validate()` fails, `Save` returns exactly that
error, before any request is built or dispatched (the embedding yields an
`Except.error` and no `Request`). -/
theorem save_validation_short_circuit
    (host key ty : List Char) (e : GoErr) (isPtr : Bool)
    (mres : Except GoErr (List Char)) (now : GoTime) :
    saveBuild host key ty (some e) isPtr mres now = Except.error e :=
  rfl

/-- C5: on the pop routes, a 404 response yields the empty result (`nil`
item and `nil` error), and any other status above 299 yields an error
whose message carries the response status text as its suffix. -/
theorem pop_status_classification (um : List Char → Except GoErr I) (resp : Response) :
    (resp.statusCode = 404 →
      popOldestRawHandle um resp = Except.ok none ∧
      popNewestRawHandle um resp = Except.ok none) ∧
    (resp.statusCode ≠ 404 → 299 < resp.statusCode →
      popOldestRawHandle um resp =
        Except.error ⟨"cannot get item, source server responded with: ".toList ++ resp.status⟩ ∧
      popNewestRawHandle um resp =
        Except.error ⟨"cannot get item, source server responded with: ".toList ++ resp.status⟩) := by
  constructor
  · intro h
    constructor <;> simp [popOldestRawHandle, popNewestRawHandle, h]
  · intro h h2
    constructor <;> simp [popOldestRawHandle, popNewestRawHandle, h, h2]

/-- Witness for C5 at concrete responses: a 404 and a 500. -/
theorem pop_status_classification_witness :
    (resp404.statusCode = 404 ∧
      popOldestRawHandle sampleUm resp404 = Except.ok none ∧
      popNewestRawHandle sampleUm resp404 = Except.ok none) ∧
    (resp500.statusCode ≠ 404 ∧ 299 < resp500.statusCode ∧
      popOldestRawHandle sampleUm resp500 =
        Except.error ⟨"cannot get item, source server responded with: ".toList ++ resp500.status⟩ ∧
      popNewestRawHandle sampleUm resp500 =
        Except.error ⟨"cannot get item, source server responded with: ".toList ++ resp500.status⟩) :=
  ⟨⟨rfl, (pop_status_classification sampleUm resp404).1 rfl⟩,
    ⟨by decide, by decide,
      (pop_status_classification sampleUm resp500).2 (by decide) (by decide)⟩⟩

/-- C7: client-side usage errors surface before any request is built:
`Save` with an empty item type, `Save` with a pointer item, `Tag` with an
empty tag name and `Untag` with an empty tag name each return an error
without producing a `Request`. -/
theorem usage_errors_immediate
    (host key ty itemKey tagValue : List Char) (vr : Option GoErr) (isPtr : Bool)
    (mres : Except GoErr (List Char)) (now : GoTime) :
    (∃ e, saveBuild host key [] vr isPtr mres now = Except.error e) ∧
    (∃ e, saveBuild host key ty vr true mres now = Except.error e) ∧
    (∃ e, tagBuild host itemKey [] tagValue = Except.error e) ∧
    (∃ e, untagBuild host itemKey [] = Except.error e) := by
  refine ⟨?_, ?_, ⟨_, rfl⟩, ⟨_, rfl⟩⟩
  · cases vr with
    | some e => exact ⟨e, rfl⟩
    | none =>
      cases isPtr with
      | true => exact ⟨_, rfl⟩
      | false => exact ⟨_, rfl⟩
  · cases vr with
    | some e => exact ⟨e, rfl⟩
    | none => exact ⟨_, rfl⟩

/-- C8: validation of the client options fails exactly when the timeout is
below thirty seconds, and succeeds when it is at least thirty seconds, so
options that pass validation always carry a timeout of at least thirty
seconds. -/
theorem clientOptions_validate_timeout (o : ClientOptions) :
    (o.timeout < 30 * goSecond → (clientOptionsValidate o).isSome = true) ∧
    (30 * goSecond ≤ o.timeout → clientOptionsValidate o = none) := by
  refine ⟨fun h => ?_, fun h => ?_⟩
  · simp [clientOptionsValidate, h]
  · simp [clientOptionsValidate, not_lt.mpr h]

/-- Witness for C8: a ten-second timeout is rejected, a sixty-second
timeout is accepted. -/
theorem clientOptions_validate_timeout_witness :
    ((10 : Int) * goSecond < 30 * goSecond ∧
      (clientOptionsValidate
        { insecureSkipVerify := true, timeout := 10 * goSecond }).isSome = true) ∧
    ((30 : Int) * goSecond ≤ 60 * goSecond ∧
      clientOptionsValidate
        { insecureSkipVerify := false, timeout := 60 * goSecond } = none) :=
  ⟨⟨by decide, (clientOptions_validate_timeout _).1 (by decide)⟩,
    ⟨by decide, (clientOptions_validate_timeout _).2 (by decide)⟩⟩

theorem retryExec_attempts_le (m : Nat) (attempt : Nat → Except GoErr Response)
    (retryable : Except GoErr Response → Bool) :
    ∀ n k, m - k = n → k ≤ m → (retryExec m attempt retryable k).2 ≤ m + 1 := by
  intro n
  induction n with
  | zero =>
    intro k hmk hk
    have hkm : k = m := by omega
    subst hkm
    rw [retryExec]
    simp [Nat.lt_irrefl]
  | succ n ih =>
    intro k hmk hk
    have hkm : k < m := by omega
    rw [retryExec]
    by_cases hr : retryable (attempt k) = true
    · simpa [hr, hkm] using ih (k + 1) (by omega) (by omega)
    · simp [hr]
      omega

/-- C9: `New` installs a retry maximum of 20 on the request executor, so
the retry loop performs at most 21 attempts (20 retries) for any request
and always terminates with a result. -/
theorem retry_budget_bounded (attempt : Nat → Except GoErr Response)
    (retryable : Except GoErr Response → Bool) :
    newRetryMax = 20 ∧
    (retryExec newRetryMax attempt retryable 0).2 ≤ newRetryMax + 1 :=
  ⟨rfl, retryExec_attempts_le newRetryMax attempt retryable newRetryMax 0 rfl (Nat.zero_le _)⟩

/-- C10: `I.Typed` returns the supplied prototype itself (never `nil`) as
its result in every case: the result is the populated prototype and the
error is whatever the decode produced, including the failing case. -/
theorem iTyped_returns_prototype {α ε : Type} (um : List Char → α → α × Option ε)
    (i : I) (p : α) :
    ITyped um i p = (some ((um i.value p).1), (um i.value p).2) ∧
    (ITyped um i p).1.isSome = true :=
  ⟨rfl, rfl⟩

theorem typedLoop_all_ok {α ε : Type} (um : List Char → α → α × Option ε)
    (factory : Unit → α) :
    ∀ (items : List I) (acc : List α),
      items.all (fun i => ((convert um i factory).2).isNone) = true →
      typedLoop um factory items acc =
        (acc ++ items.map fun i => (convert um i factory).1, none) := by
  intro items
  induction items with
  | nil => intro acc _; simp [typedLoop]
  | cons i rest ih =>
    intro acc h
    rw [List.all_cons, Bool.and_eq_true] at h
    obtain ⟨h1, h2⟩ := h
    have hnone : (convert um i factory).2 = none := Option.isNone_iff_eq_none.mp h1
    cases hc : convert um i factory with
    | mk t e =>
      have he : e = none := by rw [hc] at hnone; exact hnone
      subst he
      simp [typedLoop, hc, ih (acc ++ [t]) h2]

theorem typedLoop_first_err {α ε : Type} (um : List Char → α → α × Option ε)
    (factory : Unit → α) :
    ∀ (pre : List I) (bad : I) (suf : List I) (acc : List α) (e : ε),
      pre.all (fun i => ((convert um i factory).2).isNone) = true →
      (convert um bad factory).2 = some e →
      typedLoop um factory (pre ++ bad :: suf) acc = ([], some e) := by
  intro pre
  induction pre with
  | nil =>
    intro bad suf acc e _ hbad
    cases hc : convert um bad factory with
    | mk t e2 =>
      have he : e2 = some e := by rw [hc] at hbad; exact hbad
      subst he
      simp [typedLoop, hc]
  | cons i rest ih =>
    intro bad suf acc e h hbad
    rw [List.all_cons, Bool.and_eq_true] at h
    obtain ⟨h1, h2⟩ := h
    have hnone : (convert um i factory).2 = none := Option.isNone_iff_eq_none.mp h1
    cases hc : convert um i factory with
    | mk t e2 =>
      have he : e2 = none := by rw [hc] at hnone; exact hnone
      subst he
      simp [typedLoop, hc, ih bad suf (acc ++ [t]) e h2 hbad]

theorem exists_first_false {β : Type} (p : β → Bool) :
    ∀ l : List β, l.all p = false →
      ∃ pre bad suf, l = pre ++ bad :: suf ∧ pre.all p = true ∧ p bad = false := by
  intro l
  induction l with
  | nil => intro h; simp at h
  | cons a l ih =>
    intro h
    rw [List.all_cons] at h
    cases hpa : p a with
    | false => exact ⟨[], a, l, rfl, rfl, hpa⟩
    | true =>
      have hl : l.all p = false := by simpa [hpa] using h
      obtain ⟨pre, bad, suf, hsplit, hpre, hbad⟩ := ih hl
      exact ⟨a :: pre, bad, suf, by rw [hsplit]; rfl,
        by simp [List.all_cons, hpa, hpre], hbad⟩

/-- C3: conversion of a collection is all-or-nothing: either every element
converts and `IL.Typed` returns the full list of converted elements (in
order, one per input element) with no error, or some element fails and
`IL.Typed` returns the error of the first failing element together with
the nil list, never a partial list. -/
theorem ilTyped_all_or_nothing {α ε : Type} (um : List Char → α → α × Option ε)
    (factory : Unit → α) (items : List I) :
    (ILTyped um items factory =
        (items.map fun i => (convert um i factory).1, none) ∧
      items.all (fun i => ((convert um i factory).2).isNone) = true) ∨
    (∃ pre bad suf e, items = pre ++ bad :: suf ∧
      pre.all (fun i => ((convert um i factory).2).isNone) = true ∧
      (convert um bad factory).2 = some e ∧
      ILTyped um items factory = ([], some e)) := by
  cases hall : items.all (fun i => ((convert um i factory).2).isNone) with
  | true =>
    left
    exact ⟨by simpa [ILTyped] using typedLoop_all_ok um factory items [] hall, rfl⟩
  | false =>
    right
    obtain ⟨pre, bad, suf, hsplit, hpre, hbad⟩ :=
      exists_first_false (fun i => ((convert um i factory).2).isNone) items hall
    obtain ⟨e, he⟩ : ∃ e, (convert um bad factory).2 = some e := by
      cases h2 : (convert um bad factory).2 with
      | none => rw [h2] at hbad; simp at hbad
      | some e => exact ⟨e, rfl⟩
    refine ⟨pre, bad, suf, e, hsplit, hpre, he, ?_⟩
    rw [hsplit]
    simpa [ILTyped] using typedLoop_first_err um factory pre bad suf [] e hpre he

theorem dropLit_self (lit s : List Char) : dropLit lit (lit ++ s) = some s := by
  induction lit with
  | nil => rfl
  | cons c cs ih => simp [dropLit, ih]

theorem parse_true (s : List Char) :
    parseBoolTok ("true".toList ++ s) = some (true, s) := by
  unfold parseBoolTok
  rw [dropLit_self]

theorem parse_false (s : List Char) :
    parseBoolTok ("false".toList ++ s) = some (false, s) := by
  have h1 : dropLit "true".toList ("false".toList ++ s) = none := rfl
  unfold parseBoolTok
  rw [h1, dropLit_self]

theorem parseBoolTok_boolChars (b : Bool) (s : List Char) :
    parseBoolTok (boolChars b ++ s) = some (b, s) := by
  cases b
  · exact parse_false s
  · exact parse_true s

theorem digitChar_isDigit {d : Nat} (h : d < 10) : (digitChar d).isDigit = true := by
  interval_cases d <;> decide

theorem digitChar_val {d : Nat} (h : d < 10) : (digitChar d).toNat - 48 = d := by
  interval_cases d <;> decide

theorem digitChar_ne_dash {d : Nat} (h : d < 10) : digitChar d ≠ '-' := by
  interval_cases d <;> decide

theorem parseDigitsAux_msd :
    ∀ ms : List Nat, (∀ d ∈ ms, d < 10) → ∀ acc : Nat,
      parseDigitsAux (ms.map digitChar ++ "\x7d".toList) acc =
        (ms.foldl (fun a d => a * 10 + d) acc, "\x7d".toList) := by
  intro ms
  induction ms with
  | nil => intro _ acc; rfl
  | cons d tl ih =>
    intro hlt acc
    have hd : d < 10 := hlt d (by simp)
    simp only [List.map_cons, List.cons_append, parseDigitsAux, List.foldl_cons,
      digitChar_isDigit hd, if_true, digitChar_val hd]
    exact ih (fun x hx => hlt x (by simp [hx])) (acc * 10 + d)

theorem foldl_digits_reverse :
    ∀ (ds : List Nat) (acc : Nat),
      ds.reverse.foldl (fun a d => a * 10 + d) acc =
        acc * 10 ^ ds.length + Nat.ofDigits 10 ds := by
  intro ds
  induction ds with
  | nil => intro acc; simp
  | cons d tl ih =>
    intro acc
    rw [List.reverse_cons, List.foldl_append]
    simp only [List.foldl_cons, List.foldl_nil]
    rw [ih acc, Nat.ofDigits_cons, List.length_cons, pow_succ]
    ring

theorem natChars_ne_nil (n : Nat) : natChars n ≠ [] := by
  by_cases h : n = 0
  · subst h; simp [natChars]
  · have hds : Nat.digits 10 n ≠ [] := Nat.digits_ne_nil_iff_ne_zero.mpr h
    simp [natChars, h, hds]

theorem natChars_head_not_dash (n : Nat) :
    ∀ c cs, natChars n = c :: cs → c ≠ '-' := by
  intro c cs hc
  by_cases h : n = 0
  · subst h
    simp [natChars] at hc
    obtain ⟨h1, _⟩ := hc
    subst h1
    decide
  · have hmap : natChars n = ((Nat.digits 10 n).reverse).map digitChar := by
      simp [natChars, h]
    have hmem : c ∈ ((Nat.digits 10 n).reverse).map digitChar := by
      rw [← hmap, hc]; simp
    obtain ⟨d, hd, hdc⟩ := List.mem_map.mp hmem
    have hdlt : d < 10 := Nat.digits_lt_base (by norm_num) (List.mem_reverse.mp hd)
    rw [← hdc]
    exact digitChar_ne_dash hdlt

theorem parseNatTok_natChars (n : Nat) :
    parseNatTok (natChars n ++ "\x7d".toList) = some (n, "\x7d".toList) := by
  by_cases h : n = 0
  · subst h; rfl
  · have hmap : natChars n = ((Nat.digits 10 n).reverse).map digitChar := by
      simp [natChars, h]
    have hlt : ∀ d ∈ (Nat.digits 10 n).reverse, d < 10 := fun d hd =>
      Nat.digits_lt_base (by norm_num) (List.mem_reverse.mp hd)
    have hfold : (Nat.digits 10 n).reverse.foldl (fun a d => a * 10 + d) 0 = n := by
      rw [foldl_digits_reverse]
      simp [Nat.ofDigits_digits]
    cases hrev : (Nat.digits 10 n).reverse with
    | nil =>
      exfalso
      have hnil : Nat.digits 10 n = [] := by
        have := congrArg List.reverse hrev
        simpa using this
      exact h (Nat.digits_eq_nil_iff_eq_zero.mp hnil)
    | cons m ms =>
      rw [hrev] at hlt hfold
      have hm : m < 10 := hlt m (by simp)
      have hmsd := parseDigitsAux_msd (m :: ms) hlt 0
      rw [hmap, hrev]
      simp only [List.map_cons, List.cons_append, parseNatTok,
        digitChar_isDigit hm, if_true]
      simp only [List.map_cons, List.cons_append] at hmsd
      rw [hmsd, hfold]

theorem parseIntTok_intChars (i : Int) :
    parseIntTok (intChars i ++ "\x7d".toList) = some (i, "\x7d".toList) := by
  by_cases h : i < 0
  · have hE : intChars i = '-' :: natChars i.natAbs := by simp [intChars, h]
    have hI : -((i.natAbs : Nat) : Int) = i := by omega
    rw [hE]
    simp only [List.cons_append, parseIntTok, if_pos rfl]
    rw [parseNatTok_natChars]
    simp only [Option.map_some']
    rw [hI]
    simp
  · have h0 : 0 ≤ i := not_lt.mp h
    have hE : intChars i = natChars i.natAbs := by simp [intChars, h]
    have hI : ((i.natAbs : Nat) : Int) = i := by omega
    rw [hE]
    cases hnc : natChars i.natAbs with
    | nil => exact absurd hnc (natChars_ne_nil _)
    | cons c cs =>
      have hcne : c ≠ '-' := natChars_head_not_dash _ c cs hnc
      simp only [List.cons_append, parseIntTok, if_neg hcne]
      rw [← List.cons_append, ← hnc, parseNatTok_natChars]
      simp only [Option.map_some']
      rw [hI]

theorem decodeClientOptions_encode (v p : ClientOptions) :
    decodeClientOptions (encodeClientOptions v) p = (v, none) := by
  obtain ⟨b, t⟩ := v
  have e1 : encodeClientOptions ⟨b, t⟩ =
      "\x7b\"InsecureSkipVerify\":".toList ++
        (boolChars b ++ (",\"Timeout\":".toList ++ (intChars t ++ "\x7d".toList))) := by
    simp [encodeClientOptions, List.append_assoc]
  rw [e1]
  unfold decodeClientOptions
  rw [dropLit_self]
  show decodeInsecureField
      (boolChars b ++ (",\"Timeout\":".toList ++ (intChars t ++ "\x7d".toList))) p =
    ({ insecureSkipVerify := b, timeout := t }, none)
  unfold decodeInsecureField
  rw [parseBoolTok_boolChars]
  show decodeTimeoutField (",\"Timeout\":".toList ++ (intChars t ++ "\x7d".toList))
      { insecureSkipVerify := b, timeout := p.timeout } =
    ({ insecureSkipVerify := b, timeout := t }, none)
  unfold decodeTimeoutField
  rw [dropLit_self]
  show decodeTimeoutValue (intChars t ++ "\x7d".toList)
      { insecureSkipVerify := b, timeout := p.timeout } =
    ({ insecureSkipVerify := b, timeout := t }, none)
  unfold decodeTimeoutValue
  rw [parseIntTok_intChars]
  simp

/-- C6: round-trip of the typed-conversion path for the concrete
serializable type `ClientOptions`: decoding (as `I.Typed` does) the bytes
produced by encoding a value (as `Save` marshals it) into a fresh
zero-valued prototype yields exactly that value, with no error. -/
theorem typed_conversion_roundtrip (v : ClientOptions) (key ty : List Char) (upd : Nat) :
    ITyped (fun bytes proto => decodeClientOptions bytes proto)
      { key := key, type := ty, value := encodeClientOptions v, updated := upd }
      zeroClientOptions = (some v, none) := by
  simp [ITyped, decodeClientOptions_encode]

end SrcClient
